import Mathlib

/-!
Verification of the governance core and user-input compatibility evaluator
of the anax edge-node agent, against its natural-language specification.

The agreement governance worker lives in `governance/governance.go`; the
compatibility evaluator lives in `compcheck/userinput_check.go`.  Pure pieces
of the Go source are translated directly; stateful handlers become pure
functions over an explicit agreement-store value; collaborator calls
(protocol handlers, the remote exchange, blockchain clients) become explicit
parameters recording their outcome for one invocation.  Persistence-layer
primitives (the `persistence` package) are not part of the provided source;
they are modelled from the spec, section 4.1, which describes them as plain
additive timestamp writes, the archived-flag flip and record deletion.
-/

namespace Anax

/-- Agreement row of the agreement store (`persistence.EstablishedAgreement`,
restricted to the fields the governance worker reads or writes).  The
metering notification is kept as a string whose empty value models the
zero-value sentinel `persistence.MeteringNotification{}`. -/
structure EstablishedAgreement where
  currentAgreementId : String
  consumerId : String
  agreementCreationTime : Nat
  agreementAcceptedTime : Nat
  agreementFinalizedTime : Nat
  agreementExecutionStartTime : Nat
  agreementDataReceivedTime : Nat
  agreementTerminatedTime : Nat
  agreementForceTerminatedTime : Nat
  workloadTerminatedTime : Nat
  agreementProtocolTerminatedTime : Nat
  terminatedReason : Nat
  terminatedDescription : String
  meteringNotificationMsg : String
  archived : Bool
deriving DecidableEq, Repr

/-- Lookup with the filter list `[UnarchivedEAFilter(), IdEAFilter(id)]` used
throughout `governance.go`: the unarchived rows whose id matches. -/
def unarchivedById (store : List EstablishedAgreement) (id : String) :
    List EstablishedAgreement :=
  store.filter (fun a => !a.archived && a.currentAgreementId == id)

/-- Modelled from the spec: the store's `update-timestamp(field, id)`
primitive (spec 4.1) applies a single-field write to the unarchived row with
the given id. -/
def updateById (store : List EstablishedAgreement) (id : String)
    (f : EstablishedAgreement → EstablishedAgreement) :
    List EstablishedAgreement :=
  store.map (fun a => if !a.archived && a.currentAgreementId == id then f a else a)

/-- Modelled from the spec: `persistence.AgreementStateExecutionStarted`
sets `execution_started_time` (spec 4.1: a plain additive timestamp write,
no precondition). -/
def AgreementStateExecutionStarted (store : List EstablishedAgreement)
    (id : String) (now : Nat) : List EstablishedAgreement :=
  updateById store id (fun a => { a with agreementExecutionStartTime := now })

/-- Modelled from the spec: `persistence.AgreementStateDataReceived` sets
`data_received_time`. -/
def AgreementStateDataReceived (store : List EstablishedAgreement)
    (id : String) (now : Nat) : List EstablishedAgreement :=
  updateById store id (fun a => { a with agreementDataReceivedTime := now })

/-- Modelled from the spec: `persistence.AgreementStateAccepted` sets
`accepted_time`. -/
def AgreementStateAccepted (store : List EstablishedAgreement)
    (id : String) (now : Nat) : List EstablishedAgreement :=
  updateById store id (fun a => { a with agreementAcceptedTime := now })

/-- Modelled from the spec: `persistence.MeteringNotificationReceived`
stores the latest metering notification for the agreement. -/
def MeteringNotificationReceived (store : List EstablishedAgreement)
    (id : String) (meter : String) : List EstablishedAgreement :=
  updateById store id (fun a => { a with meteringNotificationMsg := meter })

/-- Modelled from the spec: `persistence.DeleteEstablishedAgreement` removes
the unarchived row with the given id. -/
def DeleteEstablishedAgreement (store : List EstablishedAgreement)
    (id : String) : List EstablishedAgreement :=
  store.filter (fun a => !(!a.archived && a.currentAgreementId == id))

/-- Modelled from the spec: `persistence.AgreementStateTerminated` writes
`terminated_time` together with the reason code and description, returning
the updated record; when the row is absent the write fails and no record is
returned (`governance.go` then leaves its local pointer nil). -/
def agreementStateTerminated (store : List EstablishedAgreement) (id : String)
    (reason : Nat) (desc : String) (now : Nat) :
    List EstablishedAgreement × Option EstablishedAgreement :=
  let f := fun a => { a with agreementTerminatedTime := now,
                             terminatedReason := reason,
                             terminatedDescription := desc }
  match (unarchivedById store id).head? with
  | some a => (updateById store id f, some (f a))
  | none => (store, none)

/-! ## Termination pipeline: `cancelAgreement` and `externalTermination`
(`governance.go` lines 414-480). -/

/-- Collaborator outcomes for one `cancelAgreement` invocation:
whether the bolt write behind `persistence.AgreementStateTerminated`
succeeds, and what `producerPH[protocol].IsBlockchainWritable(ag)` reports. -/
structure CancelEnv where
  dbWriteOk : Bool
  blockchainWritable : Bool
  now : Nat
deriving DecidableEq, Repr

/-- Observable effects of one `cancelAgreement` invocation.
`externalTerminationRan` records that the detached steps 4-5 task was
started; `terminateAgreementCalled` that step 4's protocol call was made;
`cleanupStatusEnqueued` that step 5's Cleanup-Status(protocol_terminated)
command was enqueued; `meteringRoutine` is the outcome of the detached
metering goroutine, where `Except.error ()` marks a nil-record dereference
and `Except.ok b` tells whether a meter write was attempted. -/
structure CancelEffects where
  store : List EstablishedAgreement
  ag : Option EstablishedAgreement
  exchangeDeleteIssued : Bool
  externalTerminationRan : Bool
  terminateAgreementCalled : Bool
  cleanupStatusEnqueued : Bool
  meteringRoutine : Except Unit Bool
  asyncTerminationEnqueued : Bool
deriving Repr

/-- Metering goroutine of `externalTermination` (lines 465-478).  Its first
operation reads `ag.MeteringNotificationMsg`, before any nil check, so a nil
record is dereferenced (`Except.error ()`); otherwise it attempts a meter
write exactly when a metering notification is present and the record is not
archived. -/
def meteringRoutine (ag : Option EstablishedAgreement) : Except Unit Bool :=
  match ag with
  | none => Except.error ()
  | some a => Except.ok (a.meteringNotificationMsg != "" && !a.archived)

/-- Detached steps of `externalTermination` (lines 439-480): the protocol
goroutine calls `TerminateAgreement` only when the record is non-nil and
always enqueues Cleanup-Status(protocol_terminated); the metering goroutine
runs concurrently.  Returns (terminateAgreementCalled,
cleanupStatusEnqueued, metering outcome). -/
def externalTermination (ag : Option EstablishedAgreement) :
    Bool × Bool × Except Unit Bool :=
  (ag.isSome, true, meteringRoutine ag)

/-- Translation of `cancelAgreement` (lines 414-437): mark terminated in the store, issue
the best-effort exchange delete when the agreement was accepted, invoke
`externalTermination`, and enqueue an Async-Termination command when the
blockchain is not writable. -/
def cancelAgreement (env : CancelEnv) (store : List EstablishedAgreement)
    (agreementId : String) (reason : Nat) (desc : String) : CancelEffects :=
  let step1 :=
    if env.dbWriteOk then agreementStateTerminated store agreementId reason desc env.now
    else (store, none)
  let exchangeDelete :=
    match step1.2 with
    | some a => a.agreementAcceptedTime != 0
    | none => false
  let ext := externalTermination step1.2
  { store := step1.1
    ag := step1.2
    exchangeDeleteIssued := exchangeDelete
    externalTerminationRan := true
    terminateAgreementCalled := ext.1
    cleanupStatusEnqueued := ext.2.1
    meteringRoutine := ext.2.2
    asyncTerminationEnqueued := !env.blockchainWritable }

/-! ## Cleanup-Status command (`governance.go` lines 751-793). -/

def STATUS_WORKLOAD_DESTROYED : Nat := 500

def STATUS_AG_PROTOCOL_TERMINATED : Nat := 501

/-- Outcome of one Cleanup-Status command: no store change, row deletion, or
the row replaced by an updated (possibly archived) row. -/
inductive CleanupOutcome
  | ignored
  | deleted
  | updated (ag : EstablishedAgreement)
deriving DecidableEq, Repr

/-- Cleanup-Status handler (lines 751-793): unknown or non-unique unarchived
id is ignored; a never-accepted row is deleted; otherwise the completion
timestamp selected by the status is written and the row is archived when the
other completion timestamp is also set (the archive test reads the updated
record returned by the store write). -/
def cleanupStatusHandler (store : List EstablishedAgreement)
    (agreementId : String) (status : Nat) (now : Nat) : CleanupOutcome :=
  match unarchivedById store agreementId with
  | [ag] =>
    if ag.agreementAcceptedTime == 0 then .deleted
    else if status == STATUS_WORKLOAD_DESTROYED then
      let a2 := { ag with workloadTerminatedTime := now }
      if a2.agreementProtocolTerminatedTime != 0 then .updated { a2 with archived := true }
      else .updated a2
    else if status == STATUS_AG_PROTOCOL_TERMINATED then
      let a2 := { ag with agreementProtocolTerminatedTime := now }
      if a2.workloadTerminatedTime != 0 then .updated { a2 with archived := true }
      else .updated a2
    else .ignored
  | _ => .ignored

/-- Store-level effect of one Cleanup-Status command: apply the outcome of
`cleanupStatusHandler` to the store (delete via
`persistence.DeleteEstablishedAgreement`, update/archive via the store's
single-row write). -/
def cleanupStatusStep (store : List EstablishedAgreement)
    (agreementId : String) (status : Nat) (now : Nat) :
    List EstablishedAgreement :=
  match cleanupStatusHandler store agreementId status now with
  | .ignored => store
  | .deleted => DeleteEstablishedAgreement store agreementId
  | .updated ag => updateById store agreementId (fun _ => ag)

/-! ## Start-Govern-Execution command (`governance.go` lines 522-529). -/

/-- Start-Govern-Execution handler: writes `execution_started_time` through
`persistence.AgreementStateExecutionStarted` with no check of the
agreement's terminated state. -/
def startGovernExecutionHandler (store : List EstablishedAgreement)
    (agreementId : String) (now : Nat) : List EstablishedAgreement :=
  AgreementStateExecutionStarted store agreementId now

/-! ## Exchange-Message command (`governance.go` lines 551-703).

The protocol handler's message validators and the remote-exchange calls are
collaborators; their outcomes for the single message being processed are
recorded in `ExchMsgEnv`.  Each branch of the Go handler becomes one
function returning the store after the branch, whether the branch set the
`deleteMessage` flag, and whether the branch's handler ran (its validator
accepted the message). -/

/-- Payload of a validated reply-ack message
(`abstractprotocol.ProposalReply`). -/
structure ReplyAckMsg where
  agreementId : String
  stillValid : Bool
deriving DecidableEq, Repr

/-- Payload of a validated data-received message. -/
structure DataReceivedMsg where
  agreementId : String
deriving DecidableEq, Repr

/-- Payload of a validated metering-notification message. -/
structure MeterMsg where
  agreementId : String
  meter : String
deriving DecidableEq, Repr

/-- Payload of a validated cancel message. -/
structure CancelMsgData where
  agreementId : String
  reason : Nat
deriving DecidableEq, Repr

/-- Collaborator outcomes for one Exchange-Message command: the sender id
from the exchange envelope, the preliminary inbox/protocol checks, the
result of each message validator on this message, the success of the
fallible collaborator calls made inside the branches, and the result of
`HandleExtensionMessages`. -/
structure ExchMsgEnv where
  agbotId : String
  msgInExchange : Bool
  protocolExtractOk : Bool
  protocolKnown : Bool
  validateReplyAck : Except String ReplyAckMsg
  validateDataReceived : Except String DataReceivedMsg
  validateMeterNotification : Except String MeterMsg
  validateCancel : Except String CancelMsgData
  demarshalOk : Bool
  recordReplyOk : Bool
  createMessageTargetOk : Bool
  notifyDataReceiptAckOk : Bool
  convertMeterOk : Bool
  extHandled : Bool
  extCancel : Bool
  extAgid : String
  agbotRequestedCode : Nat
  now : Nat
  cancelEnv : CancelEnv

/-- Boolean success test for an `Except` collaborator result. -/
def exceptOk {e a : Type} (x : Except e a) : Bool :=
  match x with
  | .ok _ => true
  | .error _ => false

/-- Reply-ack branch (lines 581-606).  A still-valid reply on a fresh
agreement records the reply (`RecordReply` sets `accepted_time`; its later
exchange calls are summarised by `recordReplyOk`); a no-longer-valid reply
cancels the agreement.  An already accepted or terminating agreement only
flags the message for deletion. -/
def replyAckBranch (env : ExchMsgEnv) (store : List EstablishedAgreement) :
    List EstablishedAgreement × Bool × Bool :=
  match env.validateReplyAck with
  | .error _ => (store, false, false)
  | .ok replyAck =>
    match unarchivedById store replyAck.agreementId with
    | [ag] =>
      if replyAck.stillValid then
        if ag.agreementAcceptedTime != 0 || ag.agreementTerminatedTime != 0 then
          (store, true, true)
        else if !env.demarshalOk then (store, false, true)
        else if !env.recordReplyOk then (store, false, true)
        else (AgreementStateAccepted store replyAck.agreementId env.now, true, true)
      else
        ((cancelAgreement env.cancelEnv store replyAck.agreementId
            env.agbotRequestedCode "").store, true, true)
    | _ => (store, true, true)

/-- Data-received branch (lines 609-624).  The data-received timestamp is
written with no check of the agreement's terminated state; the ack send back
to the agbot may fail, in which case the message is kept for a retry. -/
def dataReceivedBranch (env : ExchMsgEnv) (store : List EstablishedAgreement) :
    List EstablishedAgreement × Bool × Bool :=
  match env.validateDataReceived with
  | .error _ => (store, false, false)
  | .ok dr =>
    match unarchivedById store dr.agreementId with
    | [_] =>
      let store2 := AgreementStateDataReceived store dr.agreementId env.now
      if !env.createMessageTargetOk then (store2, false, true)
      else if !env.notifyDataReceiptAckOk then (store2, false, true)
      else (store2, true, true)
    | _ => (store, true, true)

/-- Metering branch (lines 627-645).  A terminating agreement is skipped;
otherwise the converted notification is stored. -/
def meteringBranch (env : ExchMsgEnv) (store : List EstablishedAgreement) :
    List EstablishedAgreement × Bool × Bool :=
  match env.validateMeterNotification with
  | .error _ => (store, false, false)
  | .ok mn =>
    match unarchivedById store mn.agreementId with
    | [ag] =>
      if ag.agreementTerminatedTime != 0 then (store, true, true)
      else if !env.convertMeterOk then (store, true, true)
      else (MeteringNotificationReceived store mn.agreementId mn.meter, true, true)
    | _ => (store, true, true)

/-- Cancel branch (lines 648-669).  A cancel whose sender differs from the
recorded consumer id is ignored except for flagging the message for
deletion; a cancel on an already terminating agreement likewise; otherwise
the agreement is cancelled. -/
def cancelBranch (env : ExchMsgEnv) (store : List EstablishedAgreement) :
    List EstablishedAgreement × Bool × Bool :=
  match env.validateCancel with
  | .error _ => (store, false, false)
  | .ok can =>
    match unarchivedById store can.agreementId with
    | [ag] =>
      if env.agbotId != ag.consumerId then (store, true, true)
      else if ag.agreementTerminatedTime != 0 then (store, true, true)
      else ((cancelAgreement env.cancelEnv store can.agreementId
              can.reason "").store, true, true)
    | _ => (store, true, true)

/-- Extension branch (lines 672-694): when the extension handler requests a
cancel, the agreement is cancelled with the agbot-requested reason code. -/
def extensionBranch (env : ExchMsgEnv) (store : List EstablishedAgreement) :
    List EstablishedAgreement × Bool :=
  if env.extCancel then
    match unarchivedById store env.extAgid with
    | [_] => ((cancelAgreement env.cancelEnv store env.extAgid
                env.agbotRequestedCode "").store, false)
    | _ => (store, true)
  else (store, false)

/-- Result of processing one Exchange-Message command: the updated store,
whether the message is deleted from the remote inbox, and which validator
branches ran their handler. -/
structure ExchMsgResult where
  store : List EstablishedAgreement
  deleteMessage : Bool
  replyAckRan : Bool
  dataReceivedRan : Bool
  meteringRan : Bool
  cancelRan : Bool
deriving Repr

/-- Exchange-Message command processing (lines 551-703): a message already
deleted from the exchange is ignored without deletion; an unextractable or
unknown protocol leaves the initial deleteMessage flag set; otherwise the
four validator branches and the extension branch run in order on the
threaded store, and the message is deleted when any branch (or the
extension's handled flag) requested it. -/
def exchangeMessageHandler (env : ExchMsgEnv) (store : List EstablishedAgreement) :
    ExchMsgResult :=
  if !env.msgInExchange then
    { store := store, deleteMessage := false, replyAckRan := false,
      dataReceivedRan := false, meteringRan := false, cancelRan := false }
  else if !env.protocolExtractOk || !env.protocolKnown then
    { store := store, deleteMessage := true, replyAckRan := false,
      dataReceivedRan := false, meteringRan := false, cancelRan := false }
  else
    let b1 := replyAckBranch env store
    let b2 := dataReceivedBranch env b1.1
    let b3 := meteringBranch env b2.1
    let b4 := cancelBranch env b3.1
    let b5 := extensionBranch env b4.1
    { store := b5.1
      deleteMessage := b1.2.1 || b2.2.1 || b3.2.1 || b4.2.1 || b5.2 || env.extHandled
      replyAckRan := b1.2.2
      dataReceivedRan := b2.2.2
      meteringRan := b3.2.2
      cancelRan := b4.2.2 }

/-! ## Agreement governor (`governAgreements`, lines 258-339). -/

/-- Termination-reason tags used by the governor
(`producer.TERM_REASON_...`); the protocol-specific numeric codes are
obtained via `GetTerminationCode` and are collaborator data. -/
inductive TermReason
  | NO_REPLY_ACK
  | NOT_FINALIZED_TIMEOUT
  | NOT_EXECUTED_TIMEOUT
deriving DecidableEq, Repr

/-- Maximum minutes an agreement may stay unlaunched after acceptance
(`MAX_CONTRACT_PRELAUNCH_TIME_M`). -/
def MAX_CONTRACT_PRELAUNCH_TIME_M : Nat := 10

/-- Collaborator outcomes for one governor pass over one agreement:
blockchain client availability, agreement verifiability, the result of
`VerifyAgreement`, whether `finalizeAgreement` would succeed, the
configured agreement timeout in seconds, and the scan time. -/
structure GovEnv where
  bcAvailable : Bool
  verifiable : Bool
  verifyResult : Except String Bool
  finalizeOk : Bool
  agreementTimeoutS : Nat
  now : Nat

/-- Action the governor takes for one scanned agreement. -/
inductive GovAction
  | keep
  | finalized
  | cancel (reason : TermReason)
deriving DecidableEq, Repr

/-- Successful finalization condition of the governor's verification step
(lines 291-302): the blockchain client is up, the agreement is verifiable,
`VerifyAgreement` reports it recorded, and `finalizeAgreement` succeeds;
every other path falls through to the timeout check. -/
def finalizesNow (env : GovEnv) : Bool :=
  if env.bcAvailable && env.verifiable then
    match env.verifyResult with
    | .error _ => false
    | .ok recorded => recorded && env.finalizeOk
  else false

/-- Agreement-governor step for one scanned agreement (lines 274-337).
Unfinalized agreements are first checked against the blockchain (when the
client is up and the agreement verifiable); a recorded agreement is
finalized and skipped, every other path falls through to the
creation-timeout check.  Finalized agreements whose workload never started
are checked against the prelaunch timeout. -/
def governAgreement (env : GovEnv) (ag : EstablishedAgreement) : GovAction :=
  if ag.agreementFinalizedTime == 0 then
    if finalizesNow env then .finalized
    else if ag.agreementCreationTime + env.agreementTimeoutS < env.now then
      if ag.agreementAcceptedTime == 0 then .cancel .NO_REPLY_ACK
      else .cancel .NOT_FINALIZED_TIMEOUT
    else .keep
  else
    if ag.agreementExecutionStartTime == 0 then
      if ag.agreementAcceptedTime + MAX_CONTRACT_PRELAUNCH_TIME_M * 60 < env.now then
        .cancel .NOT_EXECUTED_TIMEOUT
      else .keep
    else .keep

/-- Scan filter of `governAgreements` (lines 263-269): unarchived rows that
were created and are not yet terminated. -/
def governScanFilter (ag : EstablishedAgreement) : Bool :=
  !ag.archived && ag.agreementCreationTime != 0 && ag.agreementTerminatedTime == 0

/-! ## Compatibility evaluator (`compcheck/userinput_check.go`).

Error taxonomy from spec 4.7; the error constants of the `compcheck`
package are not in the provided source. -/

/-- Error kinds of the compatibility evaluator (INPUT, VALIDATION,
EXCHANGE, GENERAL). -/
inductive ErrKind
  | input
  | validation
  | exchange
  | general
deriving DecidableEq, Repr

/-- Distinguished error causes used in the verified paths. -/
inductive CompErr
  | neitherNodeInputNorId
  | archMismatch
  | noServiceVersions
  | collaborator (kind : ErrKind) (msg : String)
deriving DecidableEq, Repr

/-- Value carried by a user-input binding entry (`policy.Input.Value`,
a decoded JSON value). -/
inductive JValue
  | jstr (s : String)
  | jint (n : Int)
  | jfloat (num den : Int)
  | jbool (b : Bool)
  | jlistStr (l : List String)
deriving DecidableEq, Repr

/-- Modelled from the spec: `cutil.VerifyWorkloadVarTypes` is not part of
the provided source; per spec 4.7 a supplied value must parse as the
declared type (a declared int must be an integer, a float accepts numeric
values, and so on). -/
def VerifyWorkloadVarTypes (v : JValue) (declaredType : String) : Bool :=
  match declaredType with
  | "string" =>
    match v with
    | .jstr _ => true
    | _ => false
  | "int" =>
    match v with
    | .jint _ => true
    | _ => false
  | "float" =>
    match v with
    | .jint _ => true
    | .jfloat _ _ => true
    | _ => false
  | "boolean" =>
    match v with
    | .jbool _ => true
    | _ => false
  | "list of strings" =>
    match v with
    | .jlistStr _ => true
    | _ => false
  | _ => false

/-- One declared user input of a service definition
(`exchange.UserInput`). -/
structure ExchUserInput where
  name : String
  varType : String
  defaultValue : String
deriving DecidableEq, Repr

/-- Service definition as seen by the verifier (`compcheck.ServiceDefinition`
through the abstract-service getters). -/
structure CServiceDef where
  org : String
  url : String
  version : String
  arch : String
  userInputs : List ExchUserInput
deriving DecidableEq, Repr

/-- Getter `ServiceDefinition.NeedsUserInput`: true exactly when some declared
input has a name and an empty default value. -/
def NeedsUserInput (s : CServiceDef) : Bool :=
  s.userInputs.any (fun ui => ui.name != "" && ui.defaultValue == "")

/-- One name/value pair of a user-input binding (`policy.Input`). -/
structure UIInput where
  name : String
  value : JValue
deriving DecidableEq, Repr

/-- User-input binding (`policy.UserInput`): an address plus the supplied
name/value pairs. -/
structure PUserInput where
  serviceOrgid : String
  serviceUrl : String
  serviceArch : String
  serviceVersionRange : String
  inputs : List UIInput
deriving DecidableEq, Repr

/-- Modelled from the spec: version-range membership comes from the
`semanticversion` package, which is not in the provided source; an empty
expression applies to all versions, and a concrete expression is abstracted
as exact match. -/
def versionWithinRange (range version : String) : Bool :=
  range == "" || range == version

/-- Modelled from the spec: `policy.FindUserInput` selects the binding whose
(org, url, arch) matches the service (empty address parts act as wildcards)
and whose version range contains the service version (spec 4.7, step 4). -/
def FindUserInput (url org version arch : String)
    (uis : List PUserInput) : Option PUserInput :=
  uis.find? (fun ui =>
    ui.serviceUrl == url &&
    (ui.serviceOrgid == "" || ui.serviceOrgid == org) &&
    (ui.serviceArch == "" || ui.serviceArch == arch) &&
    versionWithinRange ui.serviceVersionRange version)

/-- Modelled from the spec: `policy.MergeUserInput` keeps the first
argument's values (the directive binding) and fills the holes from the
second (the node binding) (spec 4.7, step 4). -/
def MergeUserInput (u1 u2 : PUserInput) : PUserInput :=
  { u1 with inputs :=
      u1.inputs ++
        u2.inputs.filter (fun i2 => !(u1.inputs.any (fun i1 => i1.name == i2.name))) }

/-- Verdict of verifying one service definition against the merged user
input. -/
inductive VerifyReason
  | allGood
  | noUserInput
  | badType (name : String)
  | missingRequired (name : String)
deriving DecidableEq, Repr

/-- Per-declared-input loop of `VerifyUserInputForSingleServiceDef`
(lines 545-560): a supplied value must pass the type check, an absent value
requires a non-empty declared default. -/
def checkInputs (decls : List ExchUserInput) (merged : List UIInput) :
    Bool × VerifyReason :=
  match decls with
  | [] => (true, .allGood)
  | ui :: rest =>
    match merged.find? (fun mui => mui.name == ui.name) with
    | some mui =>
      if VerifyWorkloadVarTypes mui.value ui.varType then checkInputs rest merged
      else (false, .badType ui.name)
    | none =>
      if ui.defaultValue == "" then (false, .missingRequired ui.name)
      else checkInputs rest merged

/-- Translation of `VerifyUserInputForSingleServiceDef` (lines 503-563): a service that
does not need user input is immediately compatible; otherwise the directive
and node bindings for the service are looked up, merged directive-first,
and each declared input is checked. -/
def VerifyUserInputForSingleServiceDef (sdef : CServiceDef)
    (bpUserInput deviceUserInput : List PUserInput) : Bool × VerifyReason :=
  if !NeedsUserInput sdef then (true, .allGood)
  else
    match FindUserInput sdef.url sdef.org sdef.version sdef.arch bpUserInput,
          FindUserInput sdef.url sdef.org sdef.version sdef.arch deviceUserInput with
    | none, none => (false, .noUserInput)
    | some u1, some u2 => checkInputs sdef.userInputs (MergeUserInput u1 u2).inputs
    | some u1, none => checkInputs sdef.userInputs u1.inputs
    | none, some u2 => checkInputs sdef.userInputs u2.inputs

/-! ## Node resolution of `userInputCompatible` (lines 162-182). -/

/-- Node description fields of the `UserInputCheck` input; `nodeUserInput`
is `none` when the JSON field is nil. -/
structure NodeResolveInput where
  nodeId : String
  nodeArch : String
  nodeUserInput : Option (List PUserInput)
deriving DecidableEq, Repr

/-- Exchange node record as returned by `GetExchangeNode`. -/
structure ExchangeNode where
  arch : String
  userInput : List PUserInput
deriving DecidableEq, Repr

/-- Collaborator outcome for node resolution: the result of fetching the
node from the exchange. -/
structure NodeEnv where
  getNode : String → Except CompErr ExchangeNode

/-- Node-resolution step of `userInputCompatible` (lines 162-182): a
supplied node user input is used directly; otherwise a non-empty node id
fetches the node (checking a supplied arch against the fetched one);
otherwise an INPUT error is returned.  The result is the node user input
together with the resolved node arch. -/
def resolveNodeUserInput (env : NodeEnv) (input : NodeResolveInput) :
    Except CompErr (List PUserInput × String) :=
  match input.nodeUserInput with
  | some l => .ok (l, input.nodeArch)
  | none =>
    if input.nodeId != "" then
      match env.getNode input.nodeId with
      | .error e => .error e
      | .ok node =>
        if input.nodeArch != "" then
          if node.arch != "" && node.arch != input.nodeArch then .error .archMismatch
          else .ok (node.userInput, input.nodeArch)
        else .ok (node.userInput, node.arch)
    else .error .neitherNodeInputNorId

/-! ## Workload loop of `userInputCompatible` (lines 237-366).

The per-service verification functions (`VerifyUserInputForService`,
`VerifyUserInputForServiceDef`) resolve services through the exchange and
are abstracted here as oracle parameters returning the compatibility
verdict for a given service; their single-service core is embedded above as
`VerifyUserInputForSingleServiceDef`.  The reason strings attached to
incompatible verdicts are abstracted; only the presence of a message
matters to the returned output. -/

/-- One version entry of a service reference (`exchange.WorkloadChoice`). -/
structure WorkloadChoice where
  version : String
deriving DecidableEq, Repr

/-- Service reference extracted from the business policy or pattern
(`exchange.ServiceReference`). -/
structure ServiceReference where
  serviceURL : String
  serviceOrg : String
  serviceArch : String
  serviceVersions : List WorkloadChoice
deriving DecidableEq, Repr

/-- Inline-supplied service definition (`common.ServiceFile`, restricted to
the identity fields the loop reads). -/
structure InputServiceFile where
  org : String
  url : String
  version : String
  arch : String
deriving DecidableEq, Repr

/-- Modelled from the spec: `cutil.FormExchangeIdForService` is not in the
provided source; a service id is the org-qualified url, version and arch
joined by underscores. -/
def formServiceId (org url version arch : String) : String :=
  org ++ "/" ++ url ++ "_" ++ version ++ "_" ++ arch

/-- Modelled from the spec: `cutil.RemoveArchFromServiceId` drops the
trailing arch component of a service id. -/
def removeArchFromServiceId (sId : String) : String :=
  String.intercalate "_" ((sId.splitOn "_").dropLast)

/-- Translation of `needHandleService` (lines 642-662): with an empty check list every
service is processed; otherwise an id matches exactly, or arch-blind when
the listed id ends in an arch wildcard. -/
def needHandleService (sId : String) (services : List String) : Bool :=
  if services.isEmpty then true
  else services.any (fun id =>
    if id.endsWith "_*" || id.endsWith "_" then
      removeArchFromServiceId id == removeArchFromServiceId sId
    else id == sId)

/-- Collaborator outcomes and fixed inputs of the workload loop:
`verifyService` stands for `VerifyUserInputForService sSpec` on a concrete
arch, `getSelected` for `getSelectedServices` (ids of the service over all
arches), `verifyDefMeta` for `VerifyUserInputForServiceDef` on a fetched
all-arch service keyed by id, and `verifyInputDef` for
`VerifyUserInputForServiceDef` on an inline-supplied definition. -/
structure UIEvalEnv where
  verifyService : String → String → String → String → Except CompErr Bool
  getSelected : String → String → String → Except CompErr (List String)
  verifyDefMeta : String → Except CompErr Bool
  verifyInputDef : InputServiceFile → Except CompErr Bool
  checkAll : Bool
  inServices : List InputServiceFile
  serviceToCheck : List String

/-- Per-service message text recorded for a compatible verdict. -/
def msgCompatible : String := "Compatible"

/-- Per-service message text recorded for an incompatible verdict (the
formatted reason suffix is abstracted). -/
def msgIncompatible : String := "User Input Incompatible"

/-- Message recorded when an inline service definition is required but
missing. -/
def msgDefNotFound : String := "User Input Incompatible: service definition not found in the input"

/-- Map write on the per-service message map (Go map assignment:
overwrite an existing key, otherwise add). -/
def insertMsg (ms : List (String × String)) (k v : String) :
    List (String × String) :=
  if ms.any (fun p => p.1 == k) then
    ms.map (fun p => if p.1 == k then (k, v) else p)
  else ms ++ [(k, v)]

/-- Loop state while processing the versions of one service reference. -/
structure RefState where
  serviceCompatible : Bool
  comp : List String
  incomp : List String
  messages : List (String × String)
deriving DecidableEq, Repr

/-- Record a compatible verdict for service id `sId`. -/
def recordCompatible (st : RefState) (sId : String) : RefState :=
  { st with serviceCompatible := true,
            comp := st.comp ++ [sId],
            messages := insertMsg st.messages sId msgCompatible }

/-- Record an incompatible verdict for service id `sId`. -/
def recordIncompatible (st : RefState) (sId : String) : RefState :=
  { st with incomp := st.incomp ++ [sId],
            messages := insertMsg st.messages sId msgIncompatible }

/-- Inner loop over the all-arch services of one version when the reference
arch is a wildcard (lines 274-295): each fetched service is verified, a
compatible one breaks out when `checkAll` is false. -/
def processMetaList (env : UIEvalEnv) (ids : List String) (st : RefState) :
    Except CompErr RefState :=
  match ids with
  | [] => .ok st
  | sId :: rest =>
    if !needHandleService sId env.serviceToCheck then processMetaList env rest st
    else
      match env.verifyDefMeta sId with
      | .error e => .error e
      | .ok compatible =>
        if compatible then
          let st2 := recordCompatible st sId
          if !env.checkAll then .ok st2
          else processMetaList env rest st2
        else processMetaList env rest (recordIncompatible st sId)

/-- Selection of an inline-supplied service definition for one reference
and version (lines 304-312), and the org patch of line 322-324. -/
def findInService (env : UIEvalEnv) (ref : ServiceReference)
    (v : WorkloadChoice) : Option InputServiceFile :=
  match env.inServices.find? (fun insvc =>
      insvc.url == ref.serviceURL && insvc.version == v.version &&
      (ref.serviceArch == "*" || ref.serviceArch == "" ||
        insvc.arch == ref.serviceArch) &&
      (insvc.org == "" || insvc.org == ref.serviceOrg)) with
  | none => none
  | some sdef =>
    if sdef.org == "" then some { sdef with org := ref.serviceOrg } else some sdef

/-- Body of the version loop (lines 243-342) for one version of one service
reference; the returned flag requests a break out of the version loop. -/
def processVersion (env : UIEvalEnv) (ref : ServiceReference)
    (v : WorkloadChoice) (st : RefState) : Except CompErr (RefState × Bool) :=
  if env.inServices.isEmpty then
    if ref.serviceArch != "*" && ref.serviceArch != "" then
      let sId := formServiceId ref.serviceOrg ref.serviceURL v.version ref.serviceArch
      if !needHandleService sId env.serviceToCheck then .ok (st, false)
      else
        match env.verifyService ref.serviceURL ref.serviceOrg v.version ref.serviceArch with
        | .error e => .error e
        | .ok compatible =>
          if compatible then .ok (recordCompatible st sId, !env.checkAll)
          else .ok (recordIncompatible st sId, false)
    else
      match env.getSelected ref.serviceURL ref.serviceOrg v.version with
      | .error e => .error e
      | .ok ids =>
        match processMetaList env ids st with
        | .error e => .error e
        | .ok st2 => .ok (st2, st2.serviceCompatible && !env.checkAll)
  else
    let sId := formServiceId ref.serviceOrg ref.serviceURL v.version ref.serviceArch
    if !needHandleService sId env.serviceToCheck then .ok (st, false)
    else
      match findInService env ref v with
      | none => .ok ({ st with messages := insertMsg st.messages sId msgDefNotFound }, false)
      | some sdef =>
        match env.verifyInputDef sdef with
        | .error e => .error e
        | .ok compatible =>
          if compatible then .ok (recordCompatible st sId, !env.checkAll)
          else .ok (recordIncompatible st sId, false)

/-- Version loop of one service reference, honouring the break flag. -/
def processVersions (env : UIEvalEnv) (ref : ServiceReference)
    (vs : List WorkloadChoice) (st : RefState) : Except CompErr RefState :=
  match vs with
  | [] => .ok st
  | v :: rest =>
    match processVersion env ref v st with
    | .error e => .error e
    | .ok (st2, stop) =>
      if stop then .ok st2 else processVersions env ref rest st2

/-- Accumulated state across service references. -/
structure UICState where
  overallCompatible : Bool
  comp : List String
  incomp : List String
  messages : List (String × String)
deriving DecidableEq, Repr

/-- Loop over service references (lines 241-348): each reference restarts
`service_compatible` at false and folds its verdict into
`overall_compatible`. -/
def processRefs (env : UIEvalEnv) (refs : List ServiceReference)
    (acc : UICState) : Except CompErr UICState :=
  match refs with
  | [] => .ok acc
  | ref :: rest =>
    match processVersions env ref ref.serviceVersions
        { serviceCompatible := false, comp := acc.comp,
          incomp := acc.incomp, messages := acc.messages } with
    | .error e => .error e
    | .ok st =>
      processRefs env rest
        { overallCompatible := acc.overallCompatible && st.serviceCompatible,
          comp := st.comp, incomp := st.incomp, messages := st.messages }

/-- Output of the workload loop. -/
structure UICOutput where
  compatible : Bool
  messages : List (String × String)
deriving DecidableEq, Repr

/-- Workload loop of `userInputCompatible` (lines 219-366): an empty
reference list is a VALIDATION error (lines 219-225); otherwise the
references are processed and the overall verdict returned, except that an
empty message map is reported as incompatible with a general message
(lines 351-366). -/
def userInputCompatibleCore (env : UIEvalEnv) (refs : List ServiceReference) :
    Except CompErr UICOutput :=
  if refs.isEmpty then .error .noServiceVersions
  else
    match processRefs env refs
        { overallCompatible := true, comp := [], incomp := [], messages := [] } with
    | .error e => .error e
    | .ok acc =>
      if !acc.messages.isEmpty then
        .ok { compatible := acc.overallCompatible, messages := acc.messages }
      else
        .ok { compatible := false, messages := [("general", msgIncompatible)] }

/-- Verdict of one fetched all-arch service in the wildcard branch, as a
total boolean (an erroring oracle counts as not compatible; an error
reached during processing aborts the whole evaluation anyway). -/
def metaVerdict (env : UIEvalEnv) (sId : String) : Bool :=
  match env.verifyDefMeta sId with
  | .ok b => b
  | .error _ => false

/-- Verdict of one declared version of one service reference: the branch
taken by the loop body, evaluated as a total boolean. -/
def versionCompatible (env : UIEvalEnv) (ref : ServiceReference)
    (v : WorkloadChoice) : Bool :=
  if env.inServices.isEmpty then
    if ref.serviceArch != "*" && ref.serviceArch != "" then
      match env.verifyService ref.serviceURL ref.serviceOrg v.version ref.serviceArch with
      | .ok b => b
      | .error _ => false
    else
      match env.getSelected ref.serviceURL ref.serviceOrg v.version with
      | .ok ids => ids.any (metaVerdict env)
      | .error _ => false
  else
    match findInService env ref v with
    | none => false
    | some sdef =>
      match env.verifyInputDef sdef with
      | .ok b => b
      | .error _ => false

/-- Whether a service reference has at least one declared version that
verifies compatible. -/
def refHasCompatibleVersion (env : UIEvalEnv) (ref : ServiceReference) : Bool :=
  ref.serviceVersions.any (versionCompatible env ref)

/-! ## Concrete fixtures shared by the theorems below. -/

/-- Accepted, unterminated agreement used as a base fixture. -/
def agBase : EstablishedAgreement :=
  { currentAgreementId := "ag1", consumerId := "agbot1",
    agreementCreationTime := 1, agreementAcceptedTime := 2,
    agreementFinalizedTime := 0, agreementExecutionStartTime := 0,
    agreementDataReceivedTime := 0, agreementTerminatedTime := 0,
    agreementForceTerminatedTime := 0, workloadTerminatedTime := 0,
    agreementProtocolTerminatedTime := 0, terminatedReason := 0,
    terminatedDescription := "", meteringNotificationMsg := "",
    archived := false }

/-- Exchange-message environment in which every validator rejects the
message and every collaborator call succeeds. -/
def envNoMsg : ExchMsgEnv :=
  { agbotId := "agbot1", msgInExchange := true, protocolExtractOk := true,
    protocolKnown := true,
    validateReplyAck := .error "not a reply ack",
    validateDataReceived := .error "not a data received",
    validateMeterNotification := .error "not a metering notification",
    validateCancel := .error "not a cancel",
    demarshalOk := true, recordReplyOk := true, createMessageTargetOk := true,
    notifyDataReceiptAckOk := true, convertMeterOk := true,
    extHandled := false, extCancel := false, extAgid := "",
    agbotRequestedCode := 17, now := 100,
    cancelEnv := { dbWriteOk := true, blockchainWritable := true, now := 100 } }

/-! ## Helper lemmas about the exchange-message branches. -/

theorem replyAckBranch_skip (env : ExchMsgEnv) (s : List EstablishedAgreement)
    (h : exceptOk env.validateReplyAck = false) :
    replyAckBranch env s = (s, false, false) := by
  unfold replyAckBranch
  cases hv : env.validateReplyAck with
  | error e => rfl
  | ok ra => rw [hv] at h; simp [exceptOk] at h

theorem dataReceivedBranch_skip (env : ExchMsgEnv) (s : List EstablishedAgreement)
    (h : exceptOk env.validateDataReceived = false) :
    dataReceivedBranch env s = (s, false, false) := by
  unfold dataReceivedBranch
  cases hv : env.validateDataReceived with
  | error e => rfl
  | ok dr => rw [hv] at h; simp [exceptOk] at h

theorem meteringBranch_skip (env : ExchMsgEnv) (s : List EstablishedAgreement)
    (h : exceptOk env.validateMeterNotification = false) :
    meteringBranch env s = (s, false, false) := by
  unfold meteringBranch
  cases hv : env.validateMeterNotification with
  | error e => rfl
  | ok mn => rw [hv] at h; simp [exceptOk] at h

theorem replyAckBranch_ran (env : ExchMsgEnv) (s : List EstablishedAgreement) :
    (replyAckBranch env s).2.2 = exceptOk env.validateReplyAck := by
  unfold replyAckBranch exceptOk
  cases env.validateReplyAck with
  | error e => rfl
  | ok ra =>
    dsimp only
    cases h : unarchivedById s ra.agreementId with
    | nil => rfl
    | cons a t =>
      cases t with
      | nil => dsimp only; split_ifs <;> rfl
      | cons b t2 => rfl

theorem dataReceivedBranch_ran (env : ExchMsgEnv) (s : List EstablishedAgreement) :
    (dataReceivedBranch env s).2.2 = exceptOk env.validateDataReceived := by
  unfold dataReceivedBranch exceptOk
  cases env.validateDataReceived with
  | error e => rfl
  | ok dr =>
    dsimp only
    cases h : unarchivedById s dr.agreementId with
    | nil => rfl
    | cons a t =>
      cases t with
      | nil => dsimp only; split_ifs <;> rfl
      | cons b t2 => rfl

theorem meteringBranch_ran (env : ExchMsgEnv) (s : List EstablishedAgreement) :
    (meteringBranch env s).2.2 = exceptOk env.validateMeterNotification := by
  unfold meteringBranch exceptOk
  cases env.validateMeterNotification with
  | error e => rfl
  | ok mn =>
    dsimp only
    cases h : unarchivedById s mn.agreementId with
    | nil => rfl
    | cons a t =>
      cases t with
      | nil => dsimp only; split_ifs <;> rfl
      | cons b t2 => rfl

theorem cancelBranch_ran (env : ExchMsgEnv) (s : List EstablishedAgreement) :
    (cancelBranch env s).2.2 = exceptOk env.validateCancel := by
  unfold cancelBranch exceptOk
  cases env.validateCancel with
  | error e => rfl
  | ok can =>
    dsimp only
    cases h : unarchivedById s can.agreementId with
    | nil => rfl
    | cons a t =>
      cases t with
      | nil => dsimp only; split_ifs <;> rfl
      | cons b t2 => rfl

/-! ## Claim theorems. -/

/-- Terminated agreement fixture. -/
def agTerminated : EstablishedAgreement :=
  { agBase with agreementTerminatedTime := 5 }

/-- Environment in which only the data-received validator accepts the
message. -/
def envDataOnly : ExchMsgEnv :=
  { envNoMsg with validateDataReceived := .ok { agreementId := "ag1" } }

/-- C1: the lifecycle invariant `terminated_time != 0` implies no new
forward-progress timestamps fails in the code: a Start-Govern-Execution
command on a terminated agreement still sets `execution_started_time`, and
a data-received exchange message on a terminated agreement still sets
`data_received_time`; the command handler performs neither write behind a
terminated-state check. -/
theorem forward_progress_set_after_termination :
    ((startGovernExecutionHandler [agTerminated] "ag1" 100).map
        (fun a => (a.agreementTerminatedTime, a.agreementExecutionStartTime)) = [(5, 100)])
  ∧ ((exchangeMessageHandler envDataOnly [agTerminated]).store.map
        (fun a => (a.agreementTerminatedTime, a.agreementDataReceivedTime)) = [(5, 100)]) :=
  ⟨rfl, rfl⟩

/-- Environment in which both the reply-ack validator and the data-received
validator accept the message. -/
def envTwoOk : ExchMsgEnv :=
  { envNoMsg with
    validateReplyAck := .ok { agreementId := "ag1", stillValid := true },
    validateDataReceived := .ok { agreementId := "ag1" } }

/-- C2 counterexample: after the reply-ack validator accepts the message and
its handler runs (flagging the already-accepted agreement's message for
deletion), the data-received validator's handler still runs and writes the
data-received timestamp — processing does not short-circuit. -/
theorem later_validator_handler_still_runs :
    (exchangeMessageHandler envTwoOk [agBase]).replyAckRan = true
  ∧ (exchangeMessageHandler envTwoOk [agBase]).dataReceivedRan = true
  ∧ ((exchangeMessageHandler envTwoOk [agBase]).store.map
      (fun a => a.agreementDataReceivedTime) = [100]) :=
  ⟨rfl, rfl, rfl⟩

/-- C2 amended: for every Exchange-Message command with a known protocol and
a message still present in the remote inbox, the validators are tried in
order and each validator's handler runs exactly when that validator accepts
the message, independently of the earlier validators' outcomes. -/
theorem exchange_validators_all_run (env : ExchMsgEnv)
    (store : List EstablishedAgreement)
    (h1 : env.msgInExchange = true) (h2 : env.protocolExtractOk = true)
    (h3 : env.protocolKnown = true) :
    (exchangeMessageHandler env store).replyAckRan = exceptOk env.validateReplyAck
  ∧ (exchangeMessageHandler env store).dataReceivedRan = exceptOk env.validateDataReceived
  ∧ (exchangeMessageHandler env store).meteringRan = exceptOk env.validateMeterNotification
  ∧ (exchangeMessageHandler env store).cancelRan = exceptOk env.validateCancel := by
  unfold exchangeMessageHandler
  rw [h1, h2, h3]
  simp only [Bool.not_true, Bool.false_or, if_false, ite_false]
  exact ⟨replyAckBranch_ran env store, dataReceivedBranch_ran env _,
         meteringBranch_ran env _, cancelBranch_ran env _⟩

/-- C2 amended witness at a concrete message accepted by two validators. -/
theorem exchange_validators_all_run_witness :
    (exchangeMessageHandler envTwoOk [agBase]).replyAckRan = exceptOk envTwoOk.validateReplyAck
  ∧ (exchangeMessageHandler envTwoOk [agBase]).dataReceivedRan = exceptOk envTwoOk.validateDataReceived
  ∧ (exchangeMessageHandler envTwoOk [agBase]).meteringRan = exceptOk envTwoOk.validateMeterNotification
  ∧ (exchangeMessageHandler envTwoOk [agBase]).cancelRan = exceptOk envTwoOk.validateCancel :=
  exchange_validators_all_run envTwoOk [agBase] rfl rfl rfl

/-- Cancel environment with an unwritable ledger. -/
def cancelEnvNotWritable : CancelEnv :=
  { dbWriteOk := true, blockchainWritable := false, now := 50 }

/-- C3 counterexample: with the ledger not writable at cancellation time,
steps 4-5 (protocol terminate and Cleanup-Status enqueue) still run
immediately in the detached task, and the Async-Termination command is
enqueued in addition, not instead. -/
theorem termination_steps_run_when_not_writable :
    (cancelAgreement cancelEnvNotWritable [agBase] "ag1" 7 "timed out").externalTerminationRan = true
  ∧ (cancelAgreement cancelEnvNotWritable [agBase] "ag1" 7 "timed out").terminateAgreementCalled = true
  ∧ (cancelAgreement cancelEnvNotWritable [agBase] "ag1" 7 "timed out").cleanupStatusEnqueued = true
  ∧ (cancelAgreement cancelEnvNotWritable [agBase] "ag1" 7 "timed out").asyncTerminationEnqueued = true :=
  ⟨rfl, rfl, rfl, rfl⟩

/-- C3 amended: for every cancelled agreement the detached steps 4-5 task
runs immediately regardless of ledger writability, and an Async-Termination
command is additionally enqueued exactly when the ledger is not writable at
cancellation time. -/
theorem cancel_external_always_async_iff_unwritable (env : CancelEnv)
    (store : List EstablishedAgreement) (id : String) (reason : Nat)
    (desc : String) :
    (cancelAgreement env store id reason desc).externalTerminationRan = true
  ∧ (cancelAgreement env store id reason desc).cleanupStatusEnqueued = true
  ∧ (cancelAgreement env store id reason desc).asyncTerminationEnqueued = !env.blockchainWritable :=
  ⟨rfl, rfl, rfl⟩

/-- Cancel environment in which the terminated-state store write fails. -/
def cancelEnvWriteFails : CancelEnv :=
  { dbWriteOk := false, blockchainWritable := true, now := 50 }

/-- C10: when the store write marking the agreement terminated fails and the
record pointer stays nil, `externalTermination` still runs and its protocol
goroutine is guarded by a nil check, but the metering goroutine reads the
record's metering field before any nil check and dereferences the nil
record. -/
theorem metering_goroutine_nil_dereference :
    (cancelAgreement cancelEnvWriteFails [agBase] "ag1" 7 "d").externalTerminationRan = true
  ∧ (cancelAgreement cancelEnvWriteFails [agBase] "ag1" 7 "d").ag = none
  ∧ (cancelAgreement cancelEnvWriteFails [agBase] "ag1" 7 "d").terminateAgreementCalled = false
  ∧ (cancelAgreement cancelEnvWriteFails [agBase] "ag1" 7 "d").meteringRoutine = Except.error () :=
  ⟨rfl, rfl, rfl, rfl⟩

/-- C8: a cancel message whose sender differs from the agreement's recorded
consumer id (and which no other validator accepts) changes no stored
agreement state, yet the message is still flagged for deletion from the
remote inbox. -/
theorem spoofed_cancel_no_state_change (env : ExchMsgEnv)
    (store : List EstablishedAgreement) (can : CancelMsgData)
    (ag : EstablishedAgreement)
    (h1 : env.msgInExchange = true) (h2 : env.protocolExtractOk = true)
    (h3 : env.protocolKnown = true)
    (hra : exceptOk env.validateReplyAck = false)
    (hdr : exceptOk env.validateDataReceived = false)
    (hmn : exceptOk env.validateMeterNotification = false)
    (hcan : env.validateCancel = .ok can)
    (hfind : unarchivedById store can.agreementId = [ag])
    (hspoof : env.agbotId ≠ ag.consumerId)
    (hext : env.extCancel = false) :
    (exchangeMessageHandler env store).store = store
  ∧ (exchangeMessageHandler env store).deleteMessage = true := by
  have hb1 := replyAckBranch_skip env store hra
  have hb2 := dataReceivedBranch_skip env store hdr
  have hb3 := meteringBranch_skip env store hmn
  have hb4 : cancelBranch env store = (store, true, true) := by
    unfold cancelBranch
    rw [hcan]
    dsimp only
    rw [hfind]
    simp [bne_iff_ne, hspoof]
  have hb5 : extensionBranch env store = (store, false) := by
    simp [extensionBranch, hext]
  unfold exchangeMessageHandler
  rw [h1, h2, h3]
  simp only [Bool.not_true, Bool.false_or, if_false, ite_false]
  simp [hb1, hb2, hb3, hb4, hb5]

/-- Spoofed-sender environment for the C8 witness. -/
def envSpoof : ExchMsgEnv :=
  { envNoMsg with
    agbotId := "intruder",
    validateCancel := .ok { agreementId := "ag1", reason := 9 } }

/-- C8 witness at a concrete spoofed cancel message. -/
theorem spoofed_cancel_no_state_change_witness :
    (exchangeMessageHandler envSpoof [agBase]).store = [agBase]
  ∧ (exchangeMessageHandler envSpoof [agBase]).deleteMessage = true :=
  spoofed_cancel_no_state_change envSpoof [agBase]
    { agreementId := "ag1", reason := 9 } agBase
    rfl rfl rfl rfl rfl rfl rfl (by decide) (by decide) rfl

/-- Service declaring one int input with a non-empty default. -/
def svcIntWithDefault : CServiceDef :=
  { org := "myorg", url := "svc1", version := "1.0.0", arch := "amd64",
    userInputs := [{ name := "x", varType := "int", defaultValue := "5" }] }

/-- Directive binding supplying a non-integer value for `x`. -/
def bindingIllTyped : PUserInput :=
  { serviceOrgid := "myorg", serviceUrl := "svc1", serviceArch := "amd64",
    serviceVersionRange := "", inputs := [{ name := "x", value := .jstr "abc" }] }

/-- C6: a supplied value that does not parse as the declared type is
accepted as compatible whenever every declared input carries a default:
`NeedsUserInput` returns false and the verifier returns compatible before
any type check, although the merged binding supplies an ill-typed value for
the declared int input. -/
theorem illtyped_supplied_value_reported_compatible :
    VerifyUserInputForSingleServiceDef svcIntWithDefault [bindingIllTyped] [] = (true, .allGood)
  ∧ VerifyWorkloadVarTypes (.jstr "abc") "int" = false
  ∧ (FindUserInput "svc1" "myorg" "1.0.0" "amd64" [bindingIllTyped]).isSome = true :=
  ⟨rfl, rfl, rfl⟩

/-- Node environment whose fetch is never expected to be used. -/
def nodeEnvUnused : NodeEnv :=
  { getNode := fun _ => .error (.collaborator .exchange "node fetch not expected") }

/-- Input supplying both a node id and a node user input. -/
def inputBothSupplied : NodeResolveInput :=
  { nodeId := "org1/node1", nodeArch := "", nodeUserInput := some [] }

/-- C9 counterexample: when both a node id and a node user input are
supplied, the evaluator does not return an INPUT error; it uses the
supplied user input and proceeds. -/
theorem both_id_and_userinput_proceeds :
    resolveNodeUserInput nodeEnvUnused inputBothSupplied = .ok ([], "") := rfl

/-- C9 amended: the evaluator returns an INPUT error when neither node id
nor node user input is supplied; a supplied node user input always wins and
evaluation proceeds with it, even when a node id is also supplied. -/
theorem resolveNode_neither_errors_userinput_wins (env : NodeEnv)
    (input : NodeResolveInput) (l : List PUserInput) :
    (input.nodeUserInput = none → input.nodeId = "" →
      resolveNodeUserInput env input = .error .neitherNodeInputNorId)
  ∧ (input.nodeUserInput = some l →
      resolveNodeUserInput env input = .ok (l, input.nodeArch)) := by
  constructor
  · intro hn hi
    simp [resolveNodeUserInput, hn, hi]
  · intro hs
    simp [resolveNodeUserInput, hs]

/-- C9 amended witness at concrete inputs. -/
theorem resolveNode_neither_errors_userinput_wins_witness :
    resolveNodeUserInput nodeEnvUnused
      { nodeId := "", nodeArch := "", nodeUserInput := none } = .error .neitherNodeInputNorId :=
  (resolveNode_neither_errors_userinput_wins nodeEnvUnused
    { nodeId := "", nodeArch := "", nodeUserInput := none } []).1 rfl rfl

/-- C4: a Cleanup-Status command on a known unarchived agreement deletes the
row when it was never accepted; otherwise it sets the completion timestamp
selected by the status and archives exactly when both completion timestamps
are non-zero, and the two Cleanup-Status commands archive in either arrival
order, with the archive happening only at the second one. -/
theorem cleanup_status_deletes_or_archives
    (store : List EstablishedAgreement) (id : String)
    (ag : EstablishedAgreement) (status now : Nat)
    (hfind : unarchivedById store id = [ag])
    (hstatus : status = STATUS_WORKLOAD_DESTROYED ∨ status = STATUS_AG_PROTOCOL_TERMINATED)
    (hnow : now ≠ 0) :
    (ag.agreementAcceptedTime = 0 → cleanupStatusHandler store id status now = .deleted)
  ∧ (ag.agreementAcceptedTime ≠ 0 →
      ∃ a2, cleanupStatusHandler store id status now = .updated a2
        ∧ (status = STATUS_WORKLOAD_DESTROYED →
            a2.workloadTerminatedTime = now ∧
            a2.agreementProtocolTerminatedTime = ag.agreementProtocolTerminatedTime)
        ∧ (status = STATUS_AG_PROTOCOL_TERMINATED →
            a2.workloadTerminatedTime = ag.workloadTerminatedTime ∧
            a2.agreementProtocolTerminatedTime = now)
        ∧ (a2.archived = true ↔
            a2.workloadTerminatedTime ≠ 0 ∧ a2.agreementProtocolTerminatedTime ≠ 0))
  ∧ (ag.agreementAcceptedTime ≠ 0 → ag.workloadTerminatedTime = 0 →
      ag.agreementProtocolTerminatedTime = 0 →
      ∀ s1 s2 : Nat,
        (s1 = STATUS_WORKLOAD_DESTROYED ∧ s2 = STATUS_AG_PROTOCOL_TERMINATED) ∨
          (s1 = STATUS_AG_PROTOCOL_TERMINATED ∧ s2 = STATUS_WORKLOAD_DESTROYED) →
        ∃ a1 a3,
          cleanupStatusStep [ag] ag.currentAgreementId s1 now = [a1]
          ∧ a1.archived = false
          ∧ cleanupStatusStep [a1] ag.currentAgreementId s2 now = [a3]
          ∧ a3.archived = true) := by
  have hmem : ag ∈ unarchivedById store id := by
    rw [hfind]; exact List.mem_singleton.mpr rfl
  have harch : ag.archived = false := by
    have := List.of_mem_filter hmem
    simp only [Bool.and_eq_true, Bool.not_eq_true'] at this
    exact this.1
  refine ⟨?_, ?_, ?_⟩
  · intro hacc
    unfold cleanupStatusHandler
    rw [hfind]
    simp [hacc]
  · intro hacc
    unfold cleanupStatusHandler
    rw [hfind]
    rcases hstatus with hs | hs
    · subst hs
      by_cases hpt : ag.agreementProtocolTerminatedTime = 0
      · refine ⟨{ ag with workloadTerminatedTime := now }, ?_, ?_, ?_, ?_⟩
        · simp [hacc, hpt, STATUS_WORKLOAD_DESTROYED]
        · intro _; exact ⟨rfl, rfl⟩
        · intro hc; simp [STATUS_WORKLOAD_DESTROYED, STATUS_AG_PROTOCOL_TERMINATED] at hc
        · simp [harch, hpt]
      · refine ⟨{ ag with workloadTerminatedTime := now, archived := true }, ?_, ?_, ?_, ?_⟩
        · simp [hacc, hpt, STATUS_WORKLOAD_DESTROYED]
        · intro _; exact ⟨rfl, rfl⟩
        · intro hc; simp [STATUS_WORKLOAD_DESTROYED, STATUS_AG_PROTOCOL_TERMINATED] at hc
        · simp [hnow, hpt]
    · subst hs
      by_cases hwd : ag.workloadTerminatedTime = 0
      · refine ⟨{ ag with agreementProtocolTerminatedTime := now }, ?_, ?_, ?_, ?_⟩
        · simp [hacc, hwd, STATUS_WORKLOAD_DESTROYED, STATUS_AG_PROTOCOL_TERMINATED]
        · intro hc; simp [STATUS_WORKLOAD_DESTROYED, STATUS_AG_PROTOCOL_TERMINATED] at hc
        · intro _; exact ⟨rfl, rfl⟩
        · simp [harch, hwd]
      · refine ⟨{ ag with agreementProtocolTerminatedTime := now, archived := true }, ?_, ?_, ?_, ?_⟩
        · simp [hacc, hwd, STATUS_WORKLOAD_DESTROYED, STATUS_AG_PROTOCOL_TERMINATED]
        · intro hc; simp [STATUS_WORKLOAD_DESTROYED, STATUS_AG_PROTOCOL_TERMINATED] at hc
        · intro _; exact ⟨rfl, rfl⟩
        · simp [hnow, hwd]
  · intro hacc hwd hpt s1 s2 horder
    have hone : unarchivedById [ag] ag.currentAgreementId = [ag] := by
      simp [unarchivedById, harch]
    rcases horder with ⟨h1, h2⟩ | ⟨h1, h2⟩
    · subst h1; subst h2
      refine ⟨{ ag with workloadTerminatedTime := now }, { ag with workloadTerminatedTime := now, agreementProtocolTerminatedTime := now, archived := true }, ?_, ?_, ?_, ?_⟩
      · unfold cleanupStatusStep cleanupStatusHandler
        rw [hone]
        simp [hacc, hpt, STATUS_WORKLOAD_DESTROYED, updateById, harch]
      · exact harch
      · unfold cleanupStatusStep cleanupStatusHandler
        have hone2 : unarchivedById [{ ag with workloadTerminatedTime := now }]
            ag.currentAgreementId = [{ ag with workloadTerminatedTime := now }] := by
          simp [unarchivedById, harch]
        rw [hone2]
        simp [hacc, hnow, STATUS_WORKLOAD_DESTROYED, STATUS_AG_PROTOCOL_TERMINATED,
          updateById, harch]
      · rfl
    · subst h1; subst h2
      refine ⟨{ ag with agreementProtocolTerminatedTime := now }, { ag with workloadTerminatedTime := now, agreementProtocolTerminatedTime := now, archived := true }, ?_, ?_, ?_, ?_⟩
      · unfold cleanupStatusStep cleanupStatusHandler
        rw [hone]
        simp [hacc, hwd, STATUS_WORKLOAD_DESTROYED, STATUS_AG_PROTOCOL_TERMINATED,
          updateById, harch]
      · exact harch
      · unfold cleanupStatusStep cleanupStatusHandler
        have hone2 : unarchivedById [{ ag with agreementProtocolTerminatedTime := now }]
            ag.currentAgreementId = [{ ag with agreementProtocolTerminatedTime := now }] := by
          simp [unarchivedById, harch]
        rw [hone2]
        simp [hacc, hnow, STATUS_WORKLOAD_DESTROYED, updateById, harch]
      · rfl

/-- Never-accepted agreement fixture for the Cleanup-Status witness. -/
def agFresh : EstablishedAgreement :=
  { agBase with agreementAcceptedTime := 0 }

/-- C4 witness: a Cleanup-Status command on a known never-accepted agreement
deletes the row. -/
theorem cleanup_status_deletes_or_archives_witness :
    cleanupStatusHandler [agFresh] "ag1" STATUS_WORKLOAD_DESTROYED 7 = CleanupOutcome.deleted :=
  (cleanup_status_deletes_or_archives [agFresh] "ag1" agFresh
    STATUS_WORKLOAD_DESTROYED 7 (by decide) (Or.inl rfl) (by decide)).1 rfl

/-- Governor environment with the blockchain client down. -/
def govEnvDown : GovEnv :=
  { bcAvailable := false, verifiable := false, verifyResult := .error "client down",
    finalizeOk := false, agreementTimeoutS := 10, now := 1000 }

/-- Never-accepted agreement fixture. -/
def agNeverAccepted : EstablishedAgreement :=
  { agBase with agreementAcceptedTime := 0 }

/-- C7: a scanned agreement that is not finalized, whose verification step
does not finalize it, and whose creation timeout has expired is cancelled
with NO_REPLY_ACK when never accepted and NOT_FINALIZED_TIMEOUT otherwise;
a finalized agreement whose workload never started past the prelaunch
timeout is cancelled with NOT_EXECUTED_TIMEOUT. -/
theorem governor_timeouts_cancel (env : GovEnv) (ag : EstablishedAgreement)
    (hscan : governScanFilter ag = true) :
    (ag.agreementFinalizedTime = 0 → finalizesNow env = false →
      ag.agreementCreationTime + env.agreementTimeoutS < env.now →
      governAgreement env ag =
        (if ag.agreementAcceptedTime = 0 then .cancel .NO_REPLY_ACK
         else .cancel .NOT_FINALIZED_TIMEOUT))
  ∧ (ag.agreementFinalizedTime ≠ 0 → ag.agreementExecutionStartTime = 0 →
      ag.agreementAcceptedTime + MAX_CONTRACT_PRELAUNCH_TIME_M * 60 < env.now →
      governAgreement env ag = .cancel .NOT_EXECUTED_TIMEOUT) := by
  constructor
  · intro hf hfin htime
    simp only [governAgreement, hf, hfin, htime]
    by_cases hacc : ag.agreementAcceptedTime = 0 <;> simp [hacc]
  · intro hf hexec htime
    simp [governAgreement, hf, hexec, htime]

/-- C7 witness: a never-accepted, never-finalized agreement past its
creation timeout with the ledger client down is cancelled with
NO_REPLY_ACK. -/
theorem governor_timeouts_cancel_witness :
    governAgreement govEnvDown agNeverAccepted = .cancel .NO_REPLY_ACK := by
  have h := (governor_timeouts_cancel govEnvDown agNeverAccepted (by decide)).1
    rfl rfl (by decide)
  simpa using h

/-! ## Loop-invariant lemmas for the workload loop. -/

theorem insertMsg_ne_nil (ms : List (String × String)) (k v : String) :
    insertMsg ms k v ≠ [] := by
  unfold insertMsg
  split_ifs with h
  · rcases ms with _ | ⟨p, t⟩
    · simp at h
    · simp
  · simp

theorem needHandleService_nil (sId : String) : needHandleService sId [] = true := rfl

theorem processMetaList_sc (env : UIEvalEnv) (hstc : env.serviceToCheck = [])
    (ids : List String) (st st2 : RefState)
    (h : processMetaList env ids st = .ok st2) :
    st2.serviceCompatible = (st.serviceCompatible || ids.any (metaVerdict env)) := by
  induction ids generalizing st with
  | nil =>
    simp only [processMetaList, Except.ok.injEq] at h
    subst h
    simp
  | cons sId rest ih =>
    cases hv : env.verifyDefMeta sId with
    | error e =>
      simp [processMetaList, hstc, needHandleService_nil, hv] at h
    | ok b =>
      cases b with
      | false =>
        simp only [processMetaList, hstc, needHandleService_nil, hv] at h
        simp only [Bool.not_true, Bool.false_eq_true, if_false] at h
        have := ih _ h
        simp only [List.any_cons, metaVerdict, hv]
        simp only [recordIncompatible] at this
        simp [this]
      | true =>
        cases hca : env.checkAll with
        | false =>
          simp only [processMetaList, hstc, needHandleService_nil, hv, hca] at h
          simp only [Bool.not_true, Bool.not_false, Bool.false_eq_true, if_false,
            if_true, Except.ok.injEq] at h
          subst h
          simp [recordCompatible, List.any_cons, metaVerdict, hv]
        | true =>
          simp only [processMetaList, hstc, needHandleService_nil, hv, hca] at h
          simp only [Bool.not_true, Bool.not_false, Bool.false_eq_true, if_false,
            if_true] at h
          have := ih _ h
          simp only [recordCompatible] at this
          simp [this, List.any_cons, metaVerdict, hv]

theorem processMetaList_msgs_ne (env : UIEvalEnv) (hstc : env.serviceToCheck = [])
    (ids : List String) (st st2 : RefState)
    (h : processMetaList env ids st = .ok st2)
    (hm : st.messages ≠ []) : st2.messages ≠ [] := by
  induction ids generalizing st with
  | nil =>
    simp only [processMetaList, Except.ok.injEq] at h
    subst h
    exact hm
  | cons sId rest ih =>
    cases hv : env.verifyDefMeta sId with
    | error e =>
      simp [processMetaList, hstc, needHandleService_nil, hv] at h
    | ok b =>
      cases b with
      | false =>
        simp only [processMetaList, hstc, needHandleService_nil, hv] at h
        simp only [Bool.not_true, Bool.false_eq_true, if_false] at h
        exact ih _ h (by simp [recordIncompatible, insertMsg_ne_nil])
      | true =>
        cases hca : env.checkAll with
        | false =>
          simp only [processMetaList, hstc, needHandleService_nil, hv, hca] at h
          simp only [Bool.not_true, Bool.not_false, Bool.false_eq_true, if_false,
            if_true, Except.ok.injEq] at h
          subst h
          simp [recordCompatible, insertMsg_ne_nil]
        | true =>
          simp only [processMetaList, hstc, needHandleService_nil, hv, hca] at h
          simp only [Bool.not_true, Bool.not_false, Bool.false_eq_true, if_false,
            if_true] at h
          exact ih _ h (by simp [recordCompatible, insertMsg_ne_nil])

theorem processMetaList_msgs_nil (env : UIEvalEnv) (hstc : env.serviceToCheck = [])
    (ids : List String) (st st2 : RefState)
    (h : processMetaList env ids st = .ok st2)
    (hm : st2.messages = []) :
    st2.serviceCompatible = st.serviceCompatible ∧ st.messages = [] := by
  cases ids with
  | nil =>
    simp only [processMetaList, Except.ok.injEq] at h
    subst h
    exact ⟨rfl, hm⟩
  | cons sId rest =>
    exfalso
    cases hv : env.verifyDefMeta sId with
    | error e =>
      simp [processMetaList, hstc, needHandleService_nil, hv] at h
    | ok b =>
      cases b with
      | false =>
        simp only [processMetaList, hstc, needHandleService_nil, hv] at h
        simp only [Bool.not_true, Bool.false_eq_true, if_false] at h
        exact processMetaList_msgs_ne env hstc rest _ _ h
          (by simp [recordIncompatible, insertMsg_ne_nil]) hm
      | true =>
        cases hca : env.checkAll with
        | false =>
          simp only [processMetaList, hstc, needHandleService_nil, hv, hca] at h
          simp only [Bool.not_true, Bool.not_false, Bool.false_eq_true, if_false,
            if_true, Except.ok.injEq] at h
          subst h
          exact insertMsg_ne_nil _ _ _ hm
        | true =>
          simp only [processMetaList, hstc, needHandleService_nil, hv, hca] at h
          simp only [Bool.not_true, Bool.not_false, Bool.false_eq_true, if_false,
            if_true] at h
          exact processMetaList_msgs_ne env hstc rest _ _ h
            (by simp [recordCompatible, insertMsg_ne_nil]) hm

theorem processVersion_sc (env : UIEvalEnv) (hstc : env.serviceToCheck = [])
    (ref : ServiceReference) (v : WorkloadChoice) (st st2 : RefState) (stop : Bool)
    (h : processVersion env ref v st = .ok (st2, stop)) :
    st2.serviceCompatible = (st.serviceCompatible || versionCompatible env ref v)
    ∧ (stop = true → st2.serviceCompatible = true) := by
  cases hin : env.inServices.isEmpty with
  | true =>
    cases harch : (ref.serviceArch != "*" && ref.serviceArch != "") with
    | true =>
      cases hv : env.verifyService ref.serviceURL ref.serviceOrg v.version ref.serviceArch with
      | error e =>
        simp [processVersion, hin, harch, hstc, needHandleService_nil, hv] at h
      | ok b =>
        simp only [processVersion, hin, harch, hstc, needHandleService_nil, hv] at h
        simp only [if_true, if_false, Bool.false_eq_true, eq_self_iff_true, Bool.not_true,
            Bool.not_false, Except.ok.injEq, Prod.mk.injEq] at h
        cases b with
        | true =>
          simp only [if_true, if_false, Bool.false_eq_true, eq_self_iff_true, Bool.not_true,
            Bool.not_false, Except.ok.injEq, Prod.mk.injEq] at h
          obtain ⟨h1, h2⟩ := h
          subst h1; subst h2
          refine ⟨?_, fun _ => by simp [recordCompatible]⟩
          simp [versionCompatible, hin, harch, hv, recordCompatible]
        | false =>
          simp only [if_true, if_false, Bool.false_eq_true, eq_self_iff_true, Bool.not_true,
            Bool.not_false, Except.ok.injEq, Prod.mk.injEq] at h
          obtain ⟨h1, h2⟩ := h
          subst h1; subst h2
          refine ⟨?_, fun hs => by simp at hs⟩
          simp [versionCompatible, hin, harch, hv, recordIncompatible]
    | false =>
      cases hg : env.getSelected ref.serviceURL ref.serviceOrg v.version with
      | error e =>
        simp [processVersion, hin, harch, hg] at h
      | ok ids =>
        cases hpm : processMetaList env ids st with
        | error e =>
          simp [processVersion, hin, harch, hg, hpm] at h
        | ok stM =>
          simp only [processVersion, hin, harch, hg, hpm] at h
          simp only [if_true, if_false, Bool.false_eq_true, eq_self_iff_true, Bool.not_true,
            Bool.not_false, Except.ok.injEq, Prod.mk.injEq] at h
          obtain ⟨h1, h2⟩ := h
          subst h1; subst h2
          have hsc := processMetaList_sc env hstc ids st stM hpm
          refine ⟨?_, fun hs => ?_⟩
          · simp [versionCompatible, hin, harch, hg, hsc]
          · simp at hs
            exact hs.1
  | false =>
    cases hf : findInService env ref v with
    | none =>
      simp only [processVersion, hin, hstc, needHandleService_nil, hf] at h
      simp only [if_true, if_false, Bool.false_eq_true, eq_self_iff_true, Bool.not_true,
            Bool.not_false, Except.ok.injEq, Prod.mk.injEq] at h
      obtain ⟨h1, h2⟩ := h
      subst h1; subst h2
      refine ⟨?_, fun hs => by simp at hs⟩
      simp [versionCompatible, hin, hf]
    | some sdef =>
      cases hv : env.verifyInputDef sdef with
      | error e =>
        simp [processVersion, hin, hstc, needHandleService_nil, hf, hv] at h
      | ok b =>
        simp only [processVersion, hin, hstc, needHandleService_nil, hf, hv] at h
        simp only [if_true, if_false, Bool.false_eq_true, eq_self_iff_true, Bool.not_true,
            Bool.not_false, Except.ok.injEq, Prod.mk.injEq] at h
        cases b with
        | true =>
          simp only [if_true, if_false, Bool.false_eq_true, eq_self_iff_true, Bool.not_true,
            Bool.not_false, Except.ok.injEq, Prod.mk.injEq] at h
          obtain ⟨h1, h2⟩ := h
          subst h1; subst h2
          refine ⟨?_, fun _ => by simp [recordCompatible]⟩
          simp [versionCompatible, hin, hf, hv, recordCompatible]
        | false =>
          simp only [if_true, if_false, Bool.false_eq_true, eq_self_iff_true, Bool.not_true,
            Bool.not_false, Except.ok.injEq, Prod.mk.injEq] at h
          obtain ⟨h1, h2⟩ := h
          subst h1; subst h2
          refine ⟨?_, fun hs => by simp at hs⟩
          simp [versionCompatible, hin, hf, hv, recordIncompatible]

theorem processVersion_msgs_ne (env : UIEvalEnv) (hstc : env.serviceToCheck = [])
    (ref : ServiceReference) (v : WorkloadChoice) (st st2 : RefState) (stop : Bool)
    (h : processVersion env ref v st = .ok (st2, stop))
    (hm : st.messages ≠ []) : st2.messages ≠ [] := by
  cases hin : env.inServices.isEmpty with
  | true =>
    cases harch : (ref.serviceArch != "*" && ref.serviceArch != "") with
    | true =>
      cases hv : env.verifyService ref.serviceURL ref.serviceOrg v.version ref.serviceArch with
      | error e =>
        simp [processVersion, hin, harch, hstc, needHandleService_nil, hv] at h
      | ok b =>
        simp only [processVersion, hin, harch, hstc, needHandleService_nil, hv] at h
        simp only [if_true, if_false, Bool.false_eq_true, eq_self_iff_true, Bool.not_true,
            Bool.not_false, Except.ok.injEq, Prod.mk.injEq] at h
        cases b with
        | true =>
          simp only [if_true, if_false, Bool.false_eq_true, eq_self_iff_true, Bool.not_true,
            Bool.not_false, Except.ok.injEq, Prod.mk.injEq] at h
          obtain ⟨h1, h2⟩ := h
          subst h1
          simp [recordCompatible, insertMsg_ne_nil]
        | false =>
          simp only [if_true, if_false, Bool.false_eq_true, eq_self_iff_true, Bool.not_true,
            Bool.not_false, Except.ok.injEq, Prod.mk.injEq] at h
          obtain ⟨h1, h2⟩ := h
          subst h1
          simp [recordIncompatible, insertMsg_ne_nil]
    | false =>
      cases hg : env.getSelected ref.serviceURL ref.serviceOrg v.version with
      | error e =>
        simp [processVersion, hin, harch, hg] at h
      | ok ids =>
        cases hpm : processMetaList env ids st with
        | error e =>
          simp [processVersion, hin, harch, hg, hpm] at h
        | ok stM =>
          simp only [processVersion, hin, harch, hg, hpm] at h
          simp only [if_true, if_false, Bool.false_eq_true, eq_self_iff_true, Bool.not_true,
            Bool.not_false, Except.ok.injEq, Prod.mk.injEq] at h
          obtain ⟨h1, h2⟩ := h
          subst h1
          exact processMetaList_msgs_ne env hstc ids st stM hpm hm
  | false =>
    cases hf : findInService env ref v with
    | none =>
      simp only [processVersion, hin, hstc, needHandleService_nil, hf] at h
      simp only [if_true, if_false, Bool.false_eq_true, eq_self_iff_true, Bool.not_true,
            Bool.not_false, Except.ok.injEq, Prod.mk.injEq] at h
      obtain ⟨h1, h2⟩ := h
      subst h1
      simp [insertMsg_ne_nil]
    | some sdef =>
      cases hv : env.verifyInputDef sdef with
      | error e =>
        simp [processVersion, hin, hstc, needHandleService_nil, hf, hv] at h
      | ok b =>
        simp only [processVersion, hin, hstc, needHandleService_nil, hf, hv] at h
        simp only [if_true, if_false, Bool.false_eq_true, eq_self_iff_true, Bool.not_true,
            Bool.not_false, Except.ok.injEq, Prod.mk.injEq] at h
        cases b with
        | true =>
          simp only [if_true, if_false, Bool.false_eq_true, eq_self_iff_true, Bool.not_true,
            Bool.not_false, Except.ok.injEq, Prod.mk.injEq] at h
          obtain ⟨h1, h2⟩ := h
          subst h1
          simp [recordCompatible, insertMsg_ne_nil]
        | false =>
          simp only [if_true, if_false, Bool.false_eq_true, eq_self_iff_true, Bool.not_true,
            Bool.not_false, Except.ok.injEq, Prod.mk.injEq] at h
          obtain ⟨h1, h2⟩ := h
          subst h1
          simp [recordIncompatible, insertMsg_ne_nil]

theorem processVersion_msgs_nil (env : UIEvalEnv) (hstc : env.serviceToCheck = [])
    (ref : ServiceReference) (v : WorkloadChoice) (st st2 : RefState) (stop : Bool)
    (h : processVersion env ref v st = .ok (st2, stop))
    (hm : st2.messages = []) :
    st2.serviceCompatible = st.serviceCompatible ∧ st.messages = [] := by
  cases hin : env.inServices.isEmpty with
  | true =>
    cases harch : (ref.serviceArch != "*" && ref.serviceArch != "") with
    | true =>
      cases hv : env.verifyService ref.serviceURL ref.serviceOrg v.version ref.serviceArch with
      | error e =>
        simp [processVersion, hin, harch, hstc, needHandleService_nil, hv] at h
      | ok b =>
        simp only [processVersion, hin, harch, hstc, needHandleService_nil, hv] at h
        simp only [if_true, if_false, Bool.false_eq_true, eq_self_iff_true, Bool.not_true,
            Bool.not_false, Except.ok.injEq, Prod.mk.injEq] at h
        cases b with
        | true =>
          simp only [if_true, if_false, Bool.false_eq_true, eq_self_iff_true, Bool.not_true,
            Bool.not_false, Except.ok.injEq, Prod.mk.injEq] at h
          obtain ⟨h1, h2⟩ := h
          subst h1
          exact absurd hm (by simp [recordCompatible, insertMsg_ne_nil])
        | false =>
          simp only [if_true, if_false, Bool.false_eq_true, eq_self_iff_true, Bool.not_true,
            Bool.not_false, Except.ok.injEq, Prod.mk.injEq] at h
          obtain ⟨h1, h2⟩ := h
          subst h1
          exact absurd hm (by simp [recordIncompatible, insertMsg_ne_nil])
    | false =>
      cases hg : env.getSelected ref.serviceURL ref.serviceOrg v.version with
      | error e =>
        simp [processVersion, hin, harch, hg] at h
      | ok ids =>
        cases hpm : processMetaList env ids st with
        | error e =>
          simp [processVersion, hin, harch, hg, hpm] at h
        | ok stM =>
          simp only [processVersion, hin, harch, hg, hpm] at h
          simp only [if_true, if_false, Bool.false_eq_true, eq_self_iff_true, Bool.not_true,
            Bool.not_false, Except.ok.injEq, Prod.mk.injEq] at h
          obtain ⟨h1, h2⟩ := h
          subst h1
          exact processMetaList_msgs_nil env hstc ids st stM hpm hm
  | false =>
    cases hf : findInService env ref v with
    | none =>
      simp only [processVersion, hin, hstc, needHandleService_nil, hf] at h
      simp only [if_true, if_false, Bool.false_eq_true, eq_self_iff_true, Bool.not_true,
            Bool.not_false, Except.ok.injEq, Prod.mk.injEq] at h
      obtain ⟨h1, h2⟩ := h
      subst h1
      exact absurd hm (by simp [insertMsg_ne_nil])
    | some sdef =>
      cases hv : env.verifyInputDef sdef with
      | error e =>
        simp [processVersion, hin, hstc, needHandleService_nil, hf, hv] at h
      | ok b =>
        simp only [processVersion, hin, hstc, needHandleService_nil, hf, hv] at h
        simp only [if_true, if_false, Bool.false_eq_true, eq_self_iff_true, Bool.not_true,
            Bool.not_false, Except.ok.injEq, Prod.mk.injEq] at h
        cases b with
        | true =>
          simp only [if_true, if_false, Bool.false_eq_true, eq_self_iff_true, Bool.not_true,
            Bool.not_false, Except.ok.injEq, Prod.mk.injEq] at h
          obtain ⟨h1, h2⟩ := h
          subst h1
          exact absurd hm (by simp [recordCompatible, insertMsg_ne_nil])
        | false =>
          simp only [if_true, if_false, Bool.false_eq_true, eq_self_iff_true, Bool.not_true,
            Bool.not_false, Except.ok.injEq, Prod.mk.injEq] at h
          obtain ⟨h1, h2⟩ := h
          subst h1
          exact absurd hm (by simp [recordIncompatible, insertMsg_ne_nil])

theorem processVersions_sc (env : UIEvalEnv) (hstc : env.serviceToCheck = [])
    (ref : ServiceReference) (vs : List WorkloadChoice) (st st2 : RefState)
    (h : processVersions env ref vs st = .ok st2) :
    st2.serviceCompatible = (st.serviceCompatible || vs.any (versionCompatible env ref)) := by
  induction vs generalizing st with
  | nil =>
    simp only [processVersions, Except.ok.injEq] at h
    subst h
    simp
  | cons v rest ih =>
    simp only [processVersions] at h
    cases hpv : processVersion env ref v st with
    | error e => rw [hpv] at h; simp at h
    | ok p =>
      obtain ⟨st1, stop⟩ := p
      rw [hpv] at h
      dsimp only at h
      obtain ⟨e1, e2⟩ := processVersion_sc env hstc ref v st st1 stop hpv
      cases stop with
      | false =>
        simp only [Bool.false_eq_true, if_false] at h
        have := ih _ h
        rw [this, e1, List.any_cons, Bool.or_assoc]
      | true =>
        simp only [if_true, Except.ok.injEq] at h
        subst h
        have h1 : st1.serviceCompatible = true := e2 rfl
        rw [List.any_cons, ← Bool.or_assoc, ← e1, h1]
        simp

theorem processVersions_msgs_ne (env : UIEvalEnv) (hstc : env.serviceToCheck = [])
    (ref : ServiceReference) (vs : List WorkloadChoice) (st st2 : RefState)
    (h : processVersions env ref vs st = .ok st2)
    (hm : st.messages ≠ []) : st2.messages ≠ [] := by
  induction vs generalizing st with
  | nil =>
    simp only [processVersions, Except.ok.injEq] at h
    subst h
    exact hm
  | cons v rest ih =>
    simp only [processVersions] at h
    cases hpv : processVersion env ref v st with
    | error e => rw [hpv] at h; simp at h
    | ok p =>
      obtain ⟨st1, stop⟩ := p
      rw [hpv] at h
      dsimp only at h
      have hm1 := processVersion_msgs_ne env hstc ref v st st1 stop hpv hm
      cases stop with
      | false =>
        simp only [Bool.false_eq_true, if_false] at h
        exact ih _ h hm1
      | true =>
        simp only [if_true, Except.ok.injEq] at h
        subst h
        exact hm1

theorem processVersions_msgs_nil (env : UIEvalEnv) (hstc : env.serviceToCheck = [])
    (ref : ServiceReference) (vs : List WorkloadChoice) (st st2 : RefState)
    (h : processVersions env ref vs st = .ok st2)
    (hm : st2.messages = []) :
    st2.serviceCompatible = st.serviceCompatible ∧ st.messages = [] := by
  induction vs generalizing st with
  | nil =>
    simp only [processVersions, Except.ok.injEq] at h
    subst h
    exact ⟨rfl, hm⟩
  | cons v rest ih =>
    simp only [processVersions] at h
    cases hpv : processVersion env ref v st with
    | error e => rw [hpv] at h; simp at h
    | ok p =>
      obtain ⟨st1, stop⟩ := p
      rw [hpv] at h
      dsimp only at h
      cases stop with
      | false =>
        simp only [Bool.false_eq_true, if_false] at h
        obtain ⟨g1, g2⟩ := ih _ h
        obtain ⟨f1, f2⟩ := processVersion_msgs_nil env hstc ref v st st1 false hpv g2
        exact ⟨g1.trans f1, f2⟩
      | true =>
        simp only [if_true, Except.ok.injEq] at h
        subst h
        exact processVersion_msgs_nil env hstc ref v st st1 true hpv hm

theorem processRefs_overall (env : UIEvalEnv) (hstc : env.serviceToCheck = [])
    (refs : List ServiceReference) (acc acc2 : UICState)
    (h : processRefs env refs acc = .ok acc2) :
    acc2.overallCompatible =
      (acc.overallCompatible && refs.all (refHasCompatibleVersion env)) := by
  induction refs generalizing acc with
  | nil =>
    simp only [processRefs, Except.ok.injEq] at h
    subst h
    simp
  | cons ref rest ih =>
    simp only [processRefs] at h
    cases hpv : processVersions env ref ref.serviceVersions
        { serviceCompatible := false, comp := acc.comp, incomp := acc.incomp,
          messages := acc.messages } with
    | error e => rw [hpv] at h; simp at h
    | ok st =>
      rw [hpv] at h
      dsimp only at h
      have hsc : st.serviceCompatible = refHasCompatibleVersion env ref := by
        have := processVersions_sc env hstc ref _ _ _ hpv
        simpa [refHasCompatibleVersion] using this
      have hrest := ih _ h
      rw [hrest]
      dsimp only
      rw [hsc]
      simp [List.all_cons, Bool.and_assoc]

theorem processRefs_msgs_nil (env : UIEvalEnv) (hstc : env.serviceToCheck = [])
    (refs : List ServiceReference) (acc acc2 : UICState)
    (h : processRefs env refs acc = .ok acc2)
    (hm : acc2.messages = []) :
    acc.messages = [] ∧ ∀ r ∈ refs, refHasCompatibleVersion env r = false := by
  induction refs generalizing acc with
  | nil =>
    simp only [processRefs, Except.ok.injEq] at h
    subst h
    exact ⟨hm, by simp⟩
  | cons ref rest ih =>
    simp only [processRefs] at h
    cases hpv : processVersions env ref ref.serviceVersions
        { serviceCompatible := false, comp := acc.comp, incomp := acc.incomp,
          messages := acc.messages } with
    | error e => rw [hpv] at h; simp at h
    | ok st =>
      rw [hpv] at h
      dsimp only at h
      obtain ⟨hst, hall⟩ := ih _ h
      dsimp only at hst
      obtain ⟨hsc0, hinit⟩ := processVersions_msgs_nil env hstc ref _ _ _ hpv hst
      dsimp only at hsc0 hinit
      have hvc : st.serviceCompatible = refHasCompatibleVersion env ref := by
        have := processVersions_sc env hstc ref _ _ _ hpv
        simpa [refHasCompatibleVersion] using this
      refine ⟨hinit, ?_⟩
      intro r hr
      rcases List.mem_cons.mp hr with hr1 | hr2
      · subst hr1
        rw [← hvc, hsc0]
      · exact hall r hr2

/-- C5: for every evaluation of the workload loop that produces a verdict
(no collaborator error) with an empty internal service filter, the overall
result is compatible exactly when every service reference has at least one
declared version that verifies compatible. -/
theorem uic_compatible_iff (env : UIEvalEnv) (refs : List ServiceReference)
    (out : UICOutput) (hstc : env.serviceToCheck = [])
    (h : userInputCompatibleCore env refs = .ok out) :
    (out.compatible = true ↔ ∀ ref ∈ refs, refHasCompatibleVersion env ref = true) := by
  unfold userInputCompatibleCore at h
  cases hre : refs.isEmpty with
  | true => rw [hre] at h; simp at h
  | false =>
    rw [hre] at h
    simp only [Bool.false_eq_true, if_false] at h
    cases hpr : processRefs env refs
        { overallCompatible := true, comp := [], incomp := [], messages := [] } with
    | error e => rw [hpr] at h; simp at h
    | ok acc =>
      rw [hpr] at h
      dsimp only at h
      have hov := processRefs_overall env hstc refs _ _ hpr
      rw [Bool.true_and] at hov
      cases hme : acc.messages.isEmpty with
      | false =>
        rw [hme] at h
        simp only [Bool.not_false, if_true, Except.ok.injEq] at h
        subst h
        dsimp only
        rw [hov]
        exact List.all_eq_true
      | true =>
        rw [hme] at h
        simp only [Bool.not_true, Bool.false_eq_true, if_false, Except.ok.injEq] at h
        subst h
        obtain ⟨-, hall⟩ := processRefs_msgs_nil env hstc refs _ _ hpr
          (List.isEmpty_iff.mp hme)
        dsimp only
        constructor
        · intro hc
          exact absurd hc (by simp)
        · intro hforall
          have hne : refs ≠ [] := by
            intro hnil
            rw [hnil] at hre
            simp at hre
          obtain ⟨r0, hr0⟩ := List.exists_mem_of_ne_nil refs hne
          have hfalse := hall r0 hr0
          rw [hforall r0 hr0] at hfalse
          exact absurd hfalse (by simp)

/-- Oracle environment for the C5 witness: checking every service, no inline
services, a concrete-arch verifier accepting exactly version 2.0.0. -/
def uiEnvW : UIEvalEnv :=
  { verifyService := fun _ _ version _ => .ok (version == "2.0.0"),
    getSelected := fun _ _ _ => .ok [],
    verifyDefMeta := fun _ => .ok false,
    verifyInputDef := fun _ => .ok false,
    checkAll := true,
    inServices := [],
    serviceToCheck := [] }

/-- Service reference for the C5 witness. -/
def refW : ServiceReference :=
  { serviceURL := "svc1", serviceOrg := "o", serviceArch := "amd64",
    serviceVersions := [{ version := "1.0.0" }, { version := "2.0.0" }] }

/-- C5 witness: the compatible overall verdict at a concrete two-version
reference yields a compatible version for the reference. -/
theorem uic_compatible_iff_witness :
    refHasCompatibleVersion uiEnvW refW = true :=
  (uic_compatible_iff uiEnvW [refW]
      { compatible := true,
        messages := [("o/svc1_1.0.0_amd64", msgIncompatible),
                     ("o/svc1_2.0.0_amd64", msgCompatible)] }
      rfl (by rfl)).mp rfl refW (List.mem_singleton.mpr rfl)

end Anax
